import Mathlib

/-!
Verification of the `p3-trace-convertor` crate (`src/trace-convertor/src/lib.rs`):
a shallow embedding of `TraceConverter::convert`, `TraceConverter::trace_stats`
and the `MidenProcessorAir` constraint translator, followed by theorems about
the conversion and the emitted constraint system.

Modelling conventions:
* A Miden `Felt` is represented by its canonical unsigned-integer value
  (`Felt::as_int`), a `Nat`.
* A target prime-field element of modulus `q` is represented by its canonical
  value in `[0, q)`; `F::from_u64(v)` is `v % q` (`fromU64`).
* The plonky3 `AirBuilder` DSL is embedded symbolically: an assertion is a
  selector (`always` / `when_transition` / `when_first_row`) together with a
  polynomial expression over the `current` and `next` row cells.
-/

/- ===================== Definitions ===================== -/

/-- Rust `usize::next_power_of_two` semantics: `2 ^ log2Ceil n`, where
`log2Ceil n` is the least `k` with `n ≤ 2 ^ k` (so `0 ↦ 1`, `1 ↦ 1`). -/
def log2Ceil (n : Nat) : Nat :=
  ((List.range (n + 1)).filter (fun k => decide (n ≤ 2 ^ k))).headD 0

/-- Rust `usize::next_power_of_two`: the smallest power of two `≥ max n 1`. -/
def nextPowerOfTwo (n : Nat) : Nat := 2 ^ log2Ceil n

/-- `p3_util::log2_strict_usize`: the exact base-2 logarithm of its argument
when the argument is a power of two (the Rust function asserts this). -/
def log2_strict_usize (n : Nat) : Nat :=
  ((List.range (n + 1)).filter (fun k => decide (2 ^ k = n))).headD 0

/-- `F::from_u64` for a prime field of modulus `q` (plonky3 `PrimeField`):
reduce the canonical integer mod `q`. -/
def fromU64 (q v : Nat) : Nat := v % q

/-- A Miden `ExecutionTrace`, as seen by the converter: `length()` (height),
`main_trace_width()` (width), and `main_segment().get_column(c)[r]`, whose
entries are recorded by their canonical values (`Felt::as_int`). -/
structure ExecutionTrace where
  height : Nat
  width : Nat
  col : Nat → Nat → Nat

/-- plonky3 `RowMajorMatrix<F>`: a flat row-major value buffer plus a width.
`RowMajorMatrix::new(data, width)` has `height() = data.len() / width`. -/
structure RowMajorMatrix where
  values : List Nat
  width : Nat
  deriving DecidableEq

/-- `Matrix::height()` of a row-major matrix. -/
def RowMajorMatrix.height (m : RowMajorMatrix) : Nat := m.values.length / m.width

/-- Entry at row `r`, column `c` of a row-major matrix (flat index `r*w+c`). -/
def RowMajorMatrix.get (m : RowMajorMatrix) (r c : Nat) : Nat :=
  m.values.getD (r * m.width + c) 0

/-- `ConversionError` from the crate. -/
inductive ConversionError where
  | InvalidDimensions (rows cols : Nat)
  | EmptyTrace
  | FieldConversion (msg : String)
  | PowerOfTwoPadding (current required : Nat)
  deriving DecidableEq

/-- The `felt_value` selected by `TraceConverter::convert` for cell
`(row_idx, col_idx)` (canonical value).  `Felt::from(row_idx as u32)` has
canonical value `row_idx % 2^32` (the `u32` cast truncates), and
`Felt::ZERO` has canonical value `0`. -/
def feltValue (t : ExecutionTrace) (rowIdx colIdx : Nat) : Nat :=
  if rowIdx < t.height - 1 then
    t.col colIdx rowIdx
  else if rowIdx = t.height - 1 then
    if colIdx = 0 then rowIdx % 2 ^ 32 else t.col colIdx rowIdx
  else
    0

/-- `TraceConverter::convert::<F>` for a target prime field of modulus `q`:
reject empty traces, pad the height to the next power of two, and fill the
row-major buffer with `F::from_u64(felt_value.as_int())`. -/
def TraceConverter.convert (q : Nat) (t : ExecutionTrace) :
    Except ConversionError RowMajorMatrix :=
  let height := t.height
  let width := t.width
  if height = 0 || width = 0 then
    Except.error ConversionError.EmptyTrace
  else
    let paddedHeight := nextPowerOfTwo height
    let data := (List.range paddedHeight).flatMap (fun rowIdx =>
      (List.range width).map (fun colIdx => fromU64 q (feltValue t rowIdx colIdx)))
    Except.ok { values := data, width := width }

/-- `TraceStats` from the crate. -/
structure TraceStats where
  original_height : Nat
  padded_height : Nat
  width : Nat
  padding_rows : Nat
  log_height : Nat
  deriving DecidableEq

/-- `TraceConverter::trace_stats`. -/
def TraceConverter.trace_stats (t : ExecutionTrace) : TraceStats :=
  let height := t.height
  let padded_height := nextPowerOfTwo height
  { original_height := height
    padded_height := padded_height
    width := t.width
    padding_rows := padded_height - height
    log_height := log2_strict_usize padded_height }

/- ---------- The AIR constraint translator ---------- -/

/-- `MidenProcessorAir` (the `_phantom` marker field carries no data and is
omitted). -/
structure MidenProcessorAir where
  width : Nat
  aux_width : Nat
  has_aux_columns : Bool
  deriving DecidableEq

/-- Miden's `AUX_TRACE_WIDTH` constant used by `MidenProcessorAir::new`. -/
def AUX_TRACE_WIDTH : Nat := 8

/-- `MidenProcessorAir::new`. -/
def MidenProcessorAir.new (t : ExecutionTrace) : MidenProcessorAir :=
  { width := t.width, aux_width := AUX_TRACE_WIDTH, has_aux_columns := true }

/-- `MidenProcessorAir::new_main_only`. -/
def MidenProcessorAir.new_main_only (t : ExecutionTrace) : MidenProcessorAir :=
  { width := t.width, aux_width := 0, has_aux_columns := false }

/-- `MidenProcessorAir::aux_width()` (the accessor method). -/
def MidenProcessorAir.auxWidth (a : MidenProcessorAir) : Nat :=
  if a.has_aux_columns then a.aux_width else 0

/-- `<MidenProcessorAir as BaseAir<F>>::width()`. -/
def MidenProcessorAir.baseAirWidth (a : MidenProcessorAir) : Nat := a.width

/-- Symbolic polynomial expression over the two row views handed to
`Air::eval`: `cur i` is `current_row[i]`, `nxt i` is `next_row[i]`, and
`const n` is `AB::F::from_u64(n)` (with `ONE = const 1`, `ZERO = const 0`). -/
inductive Expr where
  | cur (i : Nat)
  | nxt (i : Nat)
  | const (n : Nat)
  | add (a b : Expr)
  | sub (a b : Expr)
  | mul (a b : Expr)
  deriving DecidableEq

/-- Selector under which an assertion is emitted: unconditionally, under
`when_transition()`, or under `when_first_row()`. -/
inductive Sel where
  | always
  | transition
  | firstRow
  deriving DecidableEq

/-- One emitted assertion: `assert_zero(expr)` under the given selector. -/
structure Constraint where
  sel : Sel
  expr : Expr
  deriving DecidableEq

/-- `builder.assert_zero(x)`. -/
def assertZero (s : Sel) (x : Expr) : Constraint := ⟨s, x⟩

/-- `builder.assert_eq(x, y)` = `assert_zero(x - y)` (plonky3 `AirBuilder`). -/
def assertEq (s : Sel) (x y : Expr) : Constraint := ⟨s, Expr.sub x y⟩

/-- `builder.assert_bool(x)` = `assert_zero(x * (x - 1))` (plonky3
`AirBuilder`). -/
def assertBool (s : Sel) (x : Expr) : Constraint :=
  ⟨s, Expr.mul x (Expr.sub x (Expr.const 1))⟩

/-- Column-index constants of `enforce_system_constraints`. -/
def CLK_COL : Nat := 0

/-- Frame-pointer column index. -/
def FMP_COL : Nat := 1

/-- Context-ID column index (reserved in the source; used by the boundary
constraints). -/
def CTX_COL : Nat := 2

/-- In-syscall flag column index. -/
def IN_SYSCALL_COL : Nat := 3

/-- `MidenProcessorAir::enforce_system_constraints`: the list of assertions it
emits on the builder, in emission order. -/
def MidenProcessorAir.enforce_system_constraints (a : MidenProcessorAir) :
    List Constraint :=
  (if CLK_COL < a.width then
    [assertEq Sel.transition (Expr.nxt CLK_COL)
       (Expr.add (Expr.cur CLK_COL) (Expr.const 1)),
     assertEq Sel.firstRow (Expr.cur CLK_COL) (Expr.const 0)]
   else []) ++
  (if FMP_COL < a.width then
    [assertEq Sel.firstRow (Expr.cur FMP_COL) (Expr.const 1073741824)]
   else []) ++
  (if IN_SYSCALL_COL < a.width then
    [assertBool Sel.always (Expr.cur IN_SYSCALL_COL)]
   else [])

/-- Decoder segment offset. -/
def DECODER_OFFSET : Nat := 8

/-- Decoder segment width. -/
def DECODER_WIDTH : Nat := 24

/-- Group-count column offset within the decoder segment. -/
def GROUP_COUNT_OFFSET : Nat := 17

/-- `MidenProcessorAir::enforce_decoder_constraints`. -/
def MidenProcessorAir.enforce_decoder_constraints (a : MidenProcessorAir) :
    List Constraint :=
  if a.width < DECODER_OFFSET + DECODER_WIDTH then []
  else
    ((List.range 7).flatMap (fun i =>
      if DECODER_OFFSET + 1 + i < a.width then
        [assertBool Sel.always (Expr.cur (DECODER_OFFSET + 1 + i))]
      else [])) ++
    (([13, 14, 15, 16] : List Nat).flatMap (fun off =>
      if DECODER_OFFSET + off < a.width then
        [assertBool Sel.always (Expr.cur (DECODER_OFFSET + off))]
      else [])) ++
    (if DECODER_OFFSET + GROUP_COUNT_OFFSET + 1 < a.width then
      [assertZero Sel.transition
        (Expr.mul
          (Expr.sub (Expr.cur (DECODER_OFFSET + GROUP_COUNT_OFFSET))
            (Expr.nxt (DECODER_OFFSET + GROUP_COUNT_OFFSET)))
          (Expr.sub
            (Expr.sub (Expr.cur (DECODER_OFFSET + GROUP_COUNT_OFFSET))
              (Expr.nxt (DECODER_OFFSET + GROUP_COUNT_OFFSET)))
            (Expr.const 1)))]
     else [])

/-- Stack segment offset. -/
def STACK_OFFSET : Nat := 32

/-- Stack segment width. -/
def STACK_WIDTH : Nat := 19

/-- Stack depth-tracking (B0) column index. -/
def STACK_DEPTH_COL : Nat := STACK_OFFSET + 16

/-- `MidenProcessorAir::enforce_stack_constraints`. -/
def MidenProcessorAir.enforce_stack_constraints (a : MidenProcessorAir) :
    List Constraint :=
  if a.width < STACK_OFFSET + STACK_WIDTH then []
  else
    (if STACK_DEPTH_COL < a.width then
      [assertZero Sel.transition
        (Expr.sub
          (Expr.mul (Expr.cur STACK_DEPTH_COL)
            (Expr.sub (Expr.cur STACK_DEPTH_COL) (Expr.const 16)))
          (Expr.const 1))]
     else []) ++
    ((List.range 16).flatMap (fun stackPos =>
      if STACK_OFFSET + stackPos < a.width then
        [assertZero Sel.transition
          (Expr.sub (Expr.nxt (STACK_OFFSET + stackPos))
            (Expr.cur (STACK_OFFSET + stackPos)))]
      else []))

/-- Range-check segment offset. -/
def RANGE_OFFSET : Nat := 51

/-- Range-check segment width. -/
def RANGE_WIDTH : Nat := 2

/-- Range-checked value column index. -/
def V_COL : Nat := RANGE_OFFSET

/-- Range-check intermediate column index. -/
def B_COL : Nat := RANGE_OFFSET + 1

/-- `MidenProcessorAir::enforce_range_check_constraints`. -/
def MidenProcessorAir.enforce_range_check_constraints (a : MidenProcessorAir) :
    List Constraint :=
  if a.width < RANGE_OFFSET + RANGE_WIDTH then []
  else if V_COL < a.width && B_COL < a.width then
    [assertZero Sel.always
      (Expr.mul (Expr.sub (Expr.cur V_COL) (Expr.const 65536))
        (Expr.sub (Expr.cur V_COL) (Expr.const 0)))]
  else []

/-- Chiplets segment offset. -/
def CHIPLETS_OFFSET : Nat := 53

/-- Chiplets segment width. -/
def CHIPLETS_WIDTH : Nat := 20

/-- The `is_memory_op` selector product `sel0 * sel1 * (1 - sel2)`. -/
def is_memory_op : Expr :=
  Expr.mul (Expr.mul (Expr.cur CHIPLETS_OFFSET) (Expr.cur (CHIPLETS_OFFSET + 1)))
    (Expr.sub (Expr.const 1) (Expr.cur (CHIPLETS_OFFSET + 2)))

/-- The `is_bitwise_op` selector product `sel0 * (1 - sel1)`. -/
def is_bitwise_op : Expr :=
  Expr.mul (Expr.cur CHIPLETS_OFFSET)
    (Expr.sub (Expr.const 1) (Expr.cur (CHIPLETS_OFFSET + 1)))

/-- `MidenProcessorAir::enforce_chiplet_constraints`.  A `when(cond)` block of
the plonky3 builder multiplies the condition into the asserted expression. -/
def MidenProcessorAir.enforce_chiplet_constraints (a : MidenProcessorAir) :
    List Constraint :=
  if a.width < CHIPLETS_OFFSET + CHIPLETS_WIDTH then []
  else
    ((List.range 6).flatMap (fun i =>
      if CHIPLETS_OFFSET + i < a.width then
        [assertBool Sel.always (Expr.cur (CHIPLETS_OFFSET + i))]
      else [])) ++
    (if CHIPLETS_OFFSET + 2 < a.width then
      [assertZero Sel.always
        (Expr.mul is_memory_op
          (Expr.sub (Expr.nxt (CHIPLETS_OFFSET + 10))
            (Expr.cur (CHIPLETS_OFFSET + 10))))]
     else []) ++
    (if CHIPLETS_OFFSET + 1 < a.width then
      (if CHIPLETS_OFFSET + 15 < a.width then
        [assertZero Sel.always
          (Expr.mul is_bitwise_op
            (Expr.sub (Expr.cur (CHIPLETS_OFFSET + 15)) (Expr.const 0)))]
       else [])
     else [])

/-- `MidenProcessorAir::enforce_boundary_constraints`. -/
def MidenProcessorAir.enforce_boundary_constraints (a : MidenProcessorAir) :
    List Constraint :=
  [assertEq Sel.firstRow (Expr.cur 0) (Expr.const 0)] ++
  (if 2 < a.width then
    [assertEq Sel.firstRow (Expr.cur CTX_COL) (Expr.const 0)]
   else [])

/-- `<MidenProcessorAir as Air<AB>>::eval`: all assertions emitted on the
builder, in emission order. -/
def MidenProcessorAir.eval (a : MidenProcessorAir) : List Constraint :=
  a.enforce_system_constraints ++
  a.enforce_decoder_constraints ++
  a.enforce_stack_constraints ++
  a.enforce_range_check_constraints ++
  a.enforce_chiplet_constraints ++
  a.enforce_boundary_constraints

/-- Bounds check for the cells an expression reads: every `current_row` index
is `< lc` and every `next_row` index is `< ln`. -/
def Expr.boundsOk (lc ln : Nat) : Expr → Bool
  | Expr.cur i => decide (i < lc)
  | Expr.nxt i => decide (i < ln)
  | Expr.const _ => true
  | Expr.add a b => a.boundsOk lc ln && b.boundsOk lc ln
  | Expr.sub a b => a.boundsOk lc ln && b.boundsOk lc ln
  | Expr.mul a b => a.boundsOk lc ln && b.boundsOk lc ln

/-- The clock transition constraint `clk' = clk + 1`. -/
def clkTransitionC : Constraint :=
  assertEq Sel.transition (Expr.nxt CLK_COL)
    (Expr.add (Expr.cur CLK_COL) (Expr.const 1))

/-- The clock first-row constraint `clk = 0`. -/
def clkFirstRowC : Constraint :=
  assertEq Sel.firstRow (Expr.cur CLK_COL) (Expr.const 0)

/-- The frame-pointer first-row constraint `fmp = 2^30`. -/
def fmpFirstRowC : Constraint :=
  assertEq Sel.firstRow (Expr.cur FMP_COL) (Expr.const 1073741824)

/-- The in-syscall booleanity constraint. -/
def inSyscallBoolC : Constraint :=
  assertBool Sel.always (Expr.cur IN_SYSCALL_COL)

/-- The decoder group-count difference `current - next` at column 25. -/
def groupCountDiff : Expr :=
  Expr.sub (Expr.cur (DECODER_OFFSET + GROUP_COUNT_OFFSET))
    (Expr.nxt (DECODER_OFFSET + GROUP_COUNT_OFFSET))

/-- Concrete sample trace (height 3, width 2) used to instantiate theorems. -/
def sampleTrace : ExecutionTrace := ⟨3, 2, fun c r => 7 * c + r⟩

/-- Concrete sample trace of height 100 and width 50 (spec Scenario A). -/
def sampleTrace100 : ExecutionTrace := ⟨100, 50, fun c r => c + r⟩

/-- Concrete empty trace (height 0). -/
def emptyTrace : ExecutionTrace := ⟨0, 5, fun _ _ => 0⟩

/-- Concrete sample trace of width 80 (spec Scenario D). -/
def sampleTrace80 : ExecutionTrace := ⟨6, 80, fun c r => c * r⟩

/-- Closed form of the matrix produced by a successful `convert` call: the
row-major buffer indexed flat, entry `i` holding cell `(i / width, i % width)`. -/
def convertedMatrix (q : Nat) (t : ExecutionTrace) : RowMajorMatrix :=
  ⟨(List.range (nextPowerOfTwo t.height * t.width)).map
    (fun i => fromU64 q (feltValue t (i / t.width) (i % t.width))), t.width⟩

/- ===================== Theorems ===================== -/

/-- Head of a nonempty filtered list satisfies the filter predicate. -/
theorem headD_filter_sat {α : Type} (p : α → Bool) (l : List α) (d : α)
    (h : l.filter p ≠ []) : p ((l.filter p).headD d) = true := by
  cases hf : l.filter p with
  | nil => exact absurd hf h
  | cons a t =>
    have ha : a ∈ l.filter p := by rw [hf]; exact List.mem_cons_self a t
    have hp := (List.mem_filter.mp ha).2
    simpa [hf] using hp

/-- `n ≤ 2 ^ log2Ceil n`: the padded height bounds the height from above. -/
theorem le_two_pow_log2Ceil (n : Nat) : n ≤ 2 ^ log2Ceil n := by
  have hmem : n ∈ (List.range (n + 1)).filter (fun k => decide (n ≤ 2 ^ k)) :=
    List.mem_filter.mpr ⟨List.mem_range.mpr (Nat.lt_succ_self n), by
      simp [Nat.le_of_lt (Nat.lt_two_pow n)]⟩
  have h := headD_filter_sat (fun k => decide (n ≤ 2 ^ k)) (List.range (n + 1)) 0
    (List.ne_nil_of_mem hmem)
  simpa [log2Ceil] using h

/-- `nextPowerOfTwo` dominates its argument. -/
theorem le_nextPowerOfTwo (n : Nat) : n ≤ nextPowerOfTwo n :=
  le_two_pow_log2Ceil n

/-- `log2_strict_usize` is exact on powers of two. -/
theorem two_pow_log2_strict (k : Nat) : 2 ^ log2_strict_usize (2 ^ k) = 2 ^ k := by
  have hk : k < 2 ^ k + 1 := Nat.lt_succ_of_le (Nat.le_of_lt (Nat.lt_two_pow k))
  have hmem : k ∈ (List.range (2 ^ k + 1)).filter (fun j => decide (2 ^ j = 2 ^ k)) :=
    List.mem_filter.mpr ⟨List.mem_range.mpr hk, by simp⟩
  have h := headD_filter_sat (fun j => decide (2 ^ j = 2 ^ k)) (List.range (2 ^ k + 1)) 0
    (List.ne_nil_of_mem hmem)
  simpa [log2_strict_usize] using h

/-- Row-major flattening of the nested fill loop: pushing `width` entries per
row over `m` rows equals the flat-indexed comprehension. -/
theorem flatMap_range_map (w : Nat) (hw : 0 < w) (f : Nat → Nat → Nat) (m : Nat) :
    (List.range m).flatMap (fun r => (List.range w).map (f r)) =
      (List.range (m * w)).map (fun i => f (i / w) (i % w)) := by
  induction m with
  | zero => simp
  | succ m ih =>
    rw [List.range_succ, List.flatMap_append, ih, Nat.succ_mul, List.range_add,
      List.map_append, List.map_map]
    congr 1
    · simp only [List.flatMap_cons, List.flatMap_nil, List.append_nil]
      refine (List.map_congr_left ?_).symm
      intro c hc
      have hcw : c < w := List.mem_range.mp hc
      simp only [Function.comp_apply]
      rw [Nat.mul_comm m w, Nat.mul_add_div hw, Nat.div_eq_of_lt hcw, Nat.add_zero,
        Nat.mul_add_mod, Nat.mod_eq_of_lt hcw]

/-- On nonempty traces `convert` succeeds with the flat-indexed matrix. -/
theorem convert_eq_ok (q : Nat) (t : ExecutionTrace)
    (hh : t.height ≠ 0) (hw : t.width ≠ 0) :
    TraceConverter.convert q t = Except.ok (convertedMatrix q t) := by
  simp only [TraceConverter.convert]
  rw [if_neg (by simp [hh, hw]),
    flatMap_range_map t.width (Nat.pos_of_ne_zero hw)]
  rfl

/-- Height of the converted matrix is the padded height. -/
theorem convertedMatrix_height (q : Nat) (t : ExecutionTrace) (hw : t.width ≠ 0) :
    (convertedMatrix q t).height = nextPowerOfTwo t.height := by
  simp only [convertedMatrix, RowMajorMatrix.height, List.length_map,
    List.length_range]
  exact Nat.mul_div_cancel _ (Nat.pos_of_ne_zero hw)

/-- Cell access of the converted matrix recovers `from_u64` of the selected
`felt_value`. -/
theorem convertedMatrix_get (q : Nat) (t : ExecutionTrace) (hw : 0 < t.width)
    {r c : Nat} (hr : r < nextPowerOfTwo t.height) (hc : c < t.width) :
    (convertedMatrix q t).get r c = fromU64 q (feltValue t r c) := by
  have hidx : r * t.width + c < nextPowerOfTwo t.height * t.width := by
    calc r * t.width + c < r * t.width + t.width := by omega
    _ = (r + 1) * t.width := by ring
    _ ≤ nextPowerOfTwo t.height * t.width := Nat.mul_le_mul_right _ hr
  simp only [convertedMatrix, RowMajorMatrix.get, List.getD_eq_getElem?_getD,
    List.getElem?_map, List.getElem?_range, hidx, Option.map_some',
    Option.getD_some]
  rw [Nat.mul_comm r t.width, Nat.mul_add_div hw, Nat.div_eq_of_lt hc,
    Nat.add_zero, Nat.mul_add_mod, Nat.mod_eq_of_lt hc]

/-- Claim C1: for every source trace with height ≥ 1 and width ≥ 1, `convert`
returns a matrix whose height is `next_power_of_two(height)` and a power of
two, whose width equals the source width, and in which every row with index
≥ the original height is entirely the additive identity of the target field. -/
theorem c1_convert_shape_and_zero_padding (q : Nat) (t : ExecutionTrace)
    (hh : 1 ≤ t.height) (hw : 1 ≤ t.width) :
    ∃ m : RowMajorMatrix, TraceConverter.convert q t = Except.ok m ∧
      m.height = nextPowerOfTwo t.height ∧
      (∃ k, m.height = 2 ^ k) ∧
      m.width = t.width ∧
      (∀ r c, t.height ≤ r → r < m.height → c < m.width → m.get r c = 0) := by
  have hnz : t.height ≠ 0 := by omega
  have wnz : t.width ≠ 0 := by omega
  have hht := convertedMatrix_height q t wnz
  refine ⟨convertedMatrix q t, convert_eq_ok q t hnz wnz, hht,
    ⟨log2Ceil t.height, by rw [hht]; rfl⟩, rfl, ?_⟩
  intro r c hrh hrm hcm
  rw [hht] at hrm
  rw [convertedMatrix_get q t (by omega) hrm hcm]
  have h1 : ¬ r < t.height - 1 := by omega
  have h2 : ¬ r = t.height - 1 := by omega
  simp [feltValue, h1, h2, fromU64]

/-- Witness for C1 at a concrete height-3, width-2 trace. -/
theorem c1_witness :
    1 ≤ sampleTrace.height ∧ 1 ≤ sampleTrace.width ∧
    (∃ m : RowMajorMatrix, TraceConverter.convert 97 sampleTrace = Except.ok m ∧
      m.height = nextPowerOfTwo sampleTrace.height ∧
      (∃ k, m.height = 2 ^ k) ∧
      m.width = sampleTrace.width ∧
      (∀ r c, sampleTrace.height ≤ r → r < m.height → c < m.width →
        m.get r c = 0)) :=
  ⟨by decide, by decide,
    c1_convert_shape_and_zero_padding 97 sampleTrace (by decide) (by decide)⟩

/-- Claim C2: `convert` copies every row below `height - 1` verbatim through
the canonical-integer re-encoding; in the boundary row `height - 1`, column 0
is the row index cast to a field element (through the `u32` cast, hence mod
`2^32`), and every other column is the source value copied through. -/
theorem c2_convert_row_fill (q : Nat) (t : ExecutionTrace)
    (hh : 1 ≤ t.height) (hw : 1 ≤ t.width) :
    ∃ m : RowMajorMatrix, TraceConverter.convert q t = Except.ok m ∧
      (∀ r c, r < t.height - 1 → c < t.width →
        m.get r c = fromU64 q (t.col c r)) ∧
      m.get (t.height - 1) 0 = fromU64 q ((t.height - 1) % 2 ^ 32) ∧
      (∀ c, 0 < c → c < t.width →
        m.get (t.height - 1) c = fromU64 q (t.col c (t.height - 1))) := by
  have hnz : t.height ≠ 0 := by omega
  have wnz : t.width ≠ 0 := by omega
  have hnpt : t.height ≤ nextPowerOfTwo t.height := le_nextPowerOfTwo t.height
  refine ⟨convertedMatrix q t, convert_eq_ok q t hnz wnz, ?_, ?_, ?_⟩
  · intro r c hr hc
    rw [convertedMatrix_get q t (by omega) (by omega) hc]
    simp [feltValue, hr]
  · rw [convertedMatrix_get q t (by omega) (by omega) (by omega)]
    have h1 : ¬ t.height - 1 < t.height - 1 := by omega
    simp [feltValue, h1]
  · intro c hc0 hcw
    rw [convertedMatrix_get q t (by omega) (by omega) hcw]
    have h1 : ¬ t.height - 1 < t.height - 1 := by omega
    have h2 : ¬ c = 0 := by omega
    simp [feltValue, h1, h2]

/-- Witness for C2 at a concrete height-3, width-2 trace. -/
theorem c2_witness :
    1 ≤ sampleTrace.height ∧ 1 ≤ sampleTrace.width ∧
    (∃ m : RowMajorMatrix, TraceConverter.convert 97 sampleTrace = Except.ok m ∧
      (∀ r c, r < sampleTrace.height - 1 → c < sampleTrace.width →
        m.get r c = fromU64 97 (sampleTrace.col c r)) ∧
      m.get (sampleTrace.height - 1) 0 =
        fromU64 97 ((sampleTrace.height - 1) % 2 ^ 32) ∧
      (∀ c, 0 < c → c < sampleTrace.width →
        m.get (sampleTrace.height - 1) c =
          fromU64 97 (sampleTrace.col c (sampleTrace.height - 1)))) :=
  ⟨by decide, by decide, c2_convert_row_fill 97 sampleTrace (by decide) (by decide)⟩

/-- Claim C3: `convert` returns the `EmptyTrace` error exactly when the source
height or width is zero, and `EmptyTrace` is the only error it ever returns
(the embedding is a pure function: the error branch returns before the result
buffer is built, so no result data exists on error). -/
theorem c3_empty_trace_error (q : Nat) (t : ExecutionTrace) :
    (TraceConverter.convert q t = Except.error ConversionError.EmptyTrace ↔
      t.height = 0 ∨ t.width = 0) ∧
    (∀ e, TraceConverter.convert q t = Except.error e →
      e = ConversionError.EmptyTrace) := by
  by_cases h : t.height = 0 ∨ t.width = 0
  · have herr : TraceConverter.convert q t =
        Except.error ConversionError.EmptyTrace := by
      simp only [TraceConverter.convert]
      rw [if_pos]
      rcases h with h | h <;> simp [h]
    refine ⟨⟨fun _ => h, fun _ => herr⟩, fun e he => ?_⟩
    rw [herr] at he
    exact (Except.error.injEq _ _).mp he.symm
  · push_neg at h
    rw [convert_eq_ok q t h.1 h.2]
    constructor
    · constructor
      · intro hcontra
        exact absurd hcontra (by simp)
      · intro hcontra
        exact absurd hcontra (by tauto)
    · intro e he
      exact absurd he (by simp)

/-- Witness for C3: the empty trace is rejected with `EmptyTrace`. -/
theorem c3_witness :
    TraceConverter.convert 97 emptyTrace =
      Except.error ConversionError.EmptyTrace :=
  (c3_empty_trace_error 97 emptyTrace).1.mpr (Or.inl rfl)

/-- Claim C4: `trace_stats` and `convert` agree on the padding decision:
`trace_stats(t).padded_height` is the returned matrix height and
`trace_stats(t).padding_rows` is that height minus the original height. -/
theorem c4_stats_convert_agreement (q : Nat) (t : ExecutionTrace)
    (hh : 1 ≤ t.height) (hw : 1 ≤ t.width) :
    ∃ m : RowMajorMatrix, TraceConverter.convert q t = Except.ok m ∧
      (TraceConverter.trace_stats t).padded_height = m.height ∧
      (TraceConverter.trace_stats t).padding_rows = m.height - t.height := by
  have hnz : t.height ≠ 0 := by omega
  have wnz : t.width ≠ 0 := by omega
  have hht := convertedMatrix_height q t wnz
  exact ⟨convertedMatrix q t, convert_eq_ok q t hnz wnz,
    by rw [hht]; rfl, by rw [hht]; rfl⟩

/-- Witness for C4 at the Scenario A trace (height 100, width 50). -/
theorem c4_witness :
    1 ≤ sampleTrace100.height ∧ 1 ≤ sampleTrace100.width ∧
    (∃ m : RowMajorMatrix, TraceConverter.convert 97 sampleTrace100 = Except.ok m ∧
      (TraceConverter.trace_stats sampleTrace100).padded_height = m.height ∧
      (TraceConverter.trace_stats sampleTrace100).padding_rows =
        m.height - sampleTrace100.height) :=
  ⟨by decide, by decide,
    c4_stats_convert_agreement 97 sampleTrace100 (by decide) (by decide)⟩

/-- Claim C7: `trace_stats` computes the next-power-of-two padding: the padded
height is a power of two and ≥ the height, `padding_rows` is their difference,
`log_height` is the exact base-2 log of the padded height; with the concrete
boundary scenarios from the spec (heights 100, 10, 64, 127, 200). -/
theorem c7_trace_stats_padding (t : ExecutionTrace) (hh : 1 ≤ t.height) :
    (TraceConverter.trace_stats t).padded_height = nextPowerOfTwo t.height ∧
    (∃ k, (TraceConverter.trace_stats t).padded_height = 2 ^ k) ∧
    t.height ≤ (TraceConverter.trace_stats t).padded_height ∧
    (TraceConverter.trace_stats t).padding_rows =
      (TraceConverter.trace_stats t).padded_height - t.height ∧
    2 ^ (TraceConverter.trace_stats t).log_height =
      (TraceConverter.trace_stats t).padded_height ∧
    (t.height = 100 → (TraceConverter.trace_stats t).padded_height = 128 ∧
      (TraceConverter.trace_stats t).padding_rows = 28 ∧
      (TraceConverter.trace_stats t).log_height = 7) ∧
    (t.height = 10 → (TraceConverter.trace_stats t).padded_height = 16) ∧
    (t.height = 64 → (TraceConverter.trace_stats t).padded_height = 64 ∧
      (TraceConverter.trace_stats t).padding_rows = 0) ∧
    (t.height = 127 → (TraceConverter.trace_stats t).padded_height = 128) ∧
    (t.height = 200 → (TraceConverter.trace_stats t).padded_height = 256) := by
  refine ⟨rfl, ⟨log2Ceil t.height, rfl⟩, le_nextPowerOfTwo t.height, rfl,
    two_pow_log2_strict (log2Ceil t.height), ?_, ?_, ?_, ?_, ?_⟩
  · intro h100
    refine ⟨?_, ?_, ?_⟩
    · show nextPowerOfTwo t.height = 128
      rw [h100]; decide
    · show nextPowerOfTwo t.height - t.height = 28
      rw [h100]; decide
    · show log2_strict_usize (nextPowerOfTwo t.height) = 7
      rw [h100]; decide
  · intro h10
    show nextPowerOfTwo t.height = 16
    rw [h10]; decide
  · intro h64
    refine ⟨?_, ?_⟩
    · show nextPowerOfTwo t.height = 64
      rw [h64]; decide
    · show nextPowerOfTwo t.height - t.height = 0
      rw [h64]; decide
  · intro h127
    show nextPowerOfTwo t.height = 128
    rw [h127]; decide
  · intro h200
    show nextPowerOfTwo t.height = 256
    rw [h200]; decide

/-- Witness for C7: Scenario A concrete values at height 100, width 50. -/
theorem c7_witness :
    (TraceConverter.trace_stats sampleTrace100).padded_height = 128 ∧
    (TraceConverter.trace_stats sampleTrace100).padding_rows = 28 ∧
    (TraceConverter.trace_stats sampleTrace100).log_height = 7 := by
  have h := c7_trace_stats_padding sampleTrace100 (by decide)
  exact h.2.2.2.2.2.1 rfl

/-- Claim C8: `aux_width()` returns the configured auxiliary width when
auxiliary columns are enabled (8 for a descriptor built by `new`) and 0 when
disabled (`new_main_only`); `BaseAir::width` returns the width captured at
construction in both cases. -/
theorem c8_aux_width_and_base_width (t : ExecutionTrace) :
    (MidenProcessorAir.new t).auxWidth = 8 ∧
    (MidenProcessorAir.new_main_only t).auxWidth = 0 ∧
    (MidenProcessorAir.new t).baseAirWidth = t.width ∧
    (MidenProcessorAir.new_main_only t).baseAirWidth = t.width ∧
    (∀ a : MidenProcessorAir, a.has_aux_columns = true →
      a.auxWidth = a.aux_width) ∧
    (∀ a : MidenProcessorAir, a.has_aux_columns = false → a.auxWidth = 0) := by
  refine ⟨rfl, rfl, rfl, rfl, ?_, ?_⟩ <;>
    intro a h <;> simp [MidenProcessorAir.auxWidth, h]

/-- Witness for C8 at the width-80 Scenario D trace. -/
theorem c8_witness :
    (MidenProcessorAir.new sampleTrace80).auxWidth = 8 ∧
    (MidenProcessorAir.new_main_only sampleTrace80).auxWidth = 0 ∧
    (MidenProcessorAir.new sampleTrace80).baseAirWidth = 80 ∧
    (MidenProcessorAir.new_main_only sampleTrace80).baseAirWidth = 80 := by
  obtain ⟨h1, h2, h3, h4, _, _⟩ := c8_aux_width_and_base_width sampleTrace80
  exact ⟨h1, h2, h3, h4⟩

/-- Claim C10: `trace_stats` performs no emptiness validation: at height 0 it
returns `{original_height := 0, padded_height := 1, padding_rows := 1,
log_height := 0}` while `convert` rejects the same trace with `EmptyTrace`. -/
theorem c10_trace_stats_no_validation (q : Nat) (t : ExecutionTrace)
    (h0 : t.height = 0) :
    TraceConverter.trace_stats t =
      { original_height := 0, padded_height := 1, width := t.width,
        padding_rows := 1, log_height := 0 } ∧
    TraceConverter.convert q t = Except.error ConversionError.EmptyTrace := by
  constructor
  · simp only [TraceConverter.trace_stats, h0]
    have h1 : nextPowerOfTwo 0 = 1 := by decide
    have h2 : log2_strict_usize 1 = 0 := by decide
    simp [h1, h2]
  · exact (c3_empty_trace_error q t).1.mpr (Or.inl h0)

/-- Witness for C10 at a concrete height-0 trace. -/
theorem c10_witness :
    TraceConverter.trace_stats emptyTrace =
      { original_height := 0, padded_height := 1, width := emptyTrace.width,
        padding_rows := 1, log_height := 0 } ∧
    TraceConverter.convert 97 emptyTrace =
      Except.error ConversionError.EmptyTrace :=
  c10_trace_stats_no_validation 97 emptyTrace rfl

/-- Membership in a conditional block: `x ∈ (if c then l else [])` gives both
the guard and membership in `l`. -/
theorem mem_ite_nil {α : Type} {c : Prop} [Decidable c] {l : List α} {x : α}
    (h : x ∈ if c then l else []) : c ∧ x ∈ l := by
  by_cases hc : c
  · rw [if_pos hc] at h
    exact ⟨hc, h⟩
  · rw [if_neg hc] at h
    exact absurd h (List.not_mem_nil x)

/-- Claim C5 counterexample: at descriptor width 4 the translator emits the
complete system-segment constraint set (clock transition, clock first-row,
frame-pointer first-row, in-syscall booleanity) even though 4 < 8, refuting
"the system segment's constraints are emitted iff W ≥ 8". -/
theorem c5_counterexample :
    MidenProcessorAir.enforce_system_constraints ⟨4, 8, true⟩ =
      [clkTransitionC, clkFirstRowC, fmpFirstRowC, inSyscallBoolC] ∧
    (4 : Nat) < 8 := by decide

/-- Claim C5 (amended): the system-segment constraints are gated per column,
not on `W ≥ 8`: the two clock constraints are emitted iff `W ≥ 1`, the
frame-pointer constraint iff `W ≥ 2`, the in-syscall booleanity iff `W ≥ 4`,
and the full system set is emitted iff `W ≥ 4`. -/
theorem c5_amended_system_gating (a : MidenProcessorAir) :
    (clkTransitionC ∈ a.enforce_system_constraints ↔ 1 ≤ a.width) ∧
    (clkFirstRowC ∈ a.enforce_system_constraints ↔ 1 ≤ a.width) ∧
    (fmpFirstRowC ∈ a.enforce_system_constraints ↔ 2 ≤ a.width) ∧
    (inSyscallBoolC ∈ a.enforce_system_constraints ↔ 4 ≤ a.width) ∧
    (a.enforce_system_constraints =
      [clkTransitionC, clkFirstRowC, fmpFirstRowC, inSyscallBoolC] ↔
      4 ≤ a.width) := by
  simp only [MidenProcessorAir.enforce_system_constraints, CLK_COL, FMP_COL,
    IN_SYSCALL_COL]
  by_cases h0 : 0 < a.width
  · by_cases h1 : 1 < a.width
    · by_cases h3 : 3 < a.width
      · rw [if_pos h0, if_pos h1, if_pos h3]
        exact ⟨iff_of_true (by decide) (by omega),
          iff_of_true (by decide) (by omega),
          iff_of_true (by decide) (by omega),
          iff_of_true (by decide) (by omega),
          iff_of_true (by decide) (by omega)⟩
      · rw [if_pos h0, if_pos h1, if_neg h3]
        exact ⟨iff_of_true (by decide) (by omega),
          iff_of_true (by decide) (by omega),
          iff_of_true (by decide) (by omega),
          iff_of_false (by decide) (by omega),
          iff_of_false (by decide) (by omega)⟩
    · rw [if_pos h0, if_neg h1, if_neg (by omega : ¬ 3 < a.width)]
      exact ⟨iff_of_true (by decide) (by omega),
        iff_of_true (by decide) (by omega),
        iff_of_false (by decide) (by omega),
        iff_of_false (by decide) (by omega),
        iff_of_false (by decide) (by omega)⟩
  · rw [if_neg h0, if_neg (by omega : ¬ 1 < a.width),
      if_neg (by omega : ¬ 3 < a.width)]
    exact ⟨iff_of_false (by decide) (by omega),
      iff_of_false (by decide) (by omega),
      iff_of_false (by decide) (by omega),
      iff_of_false (by decide) (by omega),
      iff_of_false (by decide) (by omega)⟩

/-- Claim C6: for widths ≥ 32 the decoder segment emits exactly the seven
operation-bit booleanity constraints (columns 9–15), the four control-flow
flag booleanity constraints (columns 21–24) and the group-count transition
constraint `diff·(diff−1) = 0` with `diff = current − next` at column 25; for
widths < 32 it emits nothing. -/
theorem c6_decoder_gating (a : MidenProcessorAir) :
    (a.width < 32 → a.enforce_decoder_constraints = []) ∧
    (32 ≤ a.width → a.enforce_decoder_constraints =
      [assertBool Sel.always (Expr.cur 9), assertBool Sel.always (Expr.cur 10),
       assertBool Sel.always (Expr.cur 11), assertBool Sel.always (Expr.cur 12),
       assertBool Sel.always (Expr.cur 13), assertBool Sel.always (Expr.cur 14),
       assertBool Sel.always (Expr.cur 15),
       assertBool Sel.always (Expr.cur 21), assertBool Sel.always (Expr.cur 22),
       assertBool Sel.always (Expr.cur 23), assertBool Sel.always (Expr.cur 24),
       assertZero Sel.transition
         (Expr.mul groupCountDiff
           (Expr.sub groupCountDiff (Expr.const 1)))]) := by
  have hr7 : List.range 7 = [0, 1, 2, 3, 4, 5, 6] := rfl
  constructor
  · intro h
    simp only [MidenProcessorAir.enforce_decoder_constraints, DECODER_OFFSET,
      DECODER_WIDTH]
    rw [if_pos (by omega)]
  · intro h
    have g9 : (9 : Nat) < a.width := by omega
    have g10 : (10 : Nat) < a.width := by omega
    have g11 : (11 : Nat) < a.width := by omega
    have g12 : (12 : Nat) < a.width := by omega
    have g13 : (13 : Nat) < a.width := by omega
    have g14 : (14 : Nat) < a.width := by omega
    have g15 : (15 : Nat) < a.width := by omega
    have g21 : (21 : Nat) < a.width := by omega
    have g22 : (22 : Nat) < a.width := by omega
    have g23 : (23 : Nat) < a.width := by omega
    have g24 : (24 : Nat) < a.width := by omega
    have g26 : (26 : Nat) < a.width := by omega
    simp only [MidenProcessorAir.enforce_decoder_constraints, DECODER_OFFSET,
      DECODER_WIDTH, GROUP_COUNT_OFFSET, groupCountDiff]
    rw [if_neg (by omega)]
    simp [hr7, g9, g10, g11, g12, g13, g14, g15, g21, g22, g23, g24, g26]

/-- Witness for C6 at a width-80 descriptor. -/
theorem c6_witness :
    32 ≤ (MidenProcessorAir.mk 80 8 true).width ∧
    MidenProcessorAir.enforce_decoder_constraints (MidenProcessorAir.mk 80 8 true) =
      [assertBool Sel.always (Expr.cur 9), assertBool Sel.always (Expr.cur 10),
       assertBool Sel.always (Expr.cur 11), assertBool Sel.always (Expr.cur 12),
       assertBool Sel.always (Expr.cur 13), assertBool Sel.always (Expr.cur 14),
       assertBool Sel.always (Expr.cur 15),
       assertBool Sel.always (Expr.cur 21), assertBool Sel.always (Expr.cur 22),
       assertBool Sel.always (Expr.cur 23), assertBool Sel.always (Expr.cur 24),
       assertZero Sel.transition
         (Expr.mul groupCountDiff
           (Expr.sub groupCountDiff (Expr.const 1)))] :=
  ⟨by decide, (c6_decoder_gating (MidenProcessorAir.mk 80 8 true)).2 (by decide)⟩

/-- All cell reads of the system-segment constraints stay below the row
lengths. -/
theorem sys_boundsOk {a : MidenProcessorAir} {lc ln : Nat}
    (hlc : a.width ≤ lc) (hln : a.width ≤ ln) :
    ∀ ce ∈ a.enforce_system_constraints, ce.expr.boundsOk lc ln = true := by
  intro ce hce
  simp only [MidenProcessorAir.enforce_system_constraints, CLK_COL, FMP_COL,
    IN_SYSCALL_COL, List.mem_append] at hce
  rcases hce with (hce | hce) | hce
  · obtain ⟨hg, hx⟩ := mem_ite_nil hce
    simp only [List.mem_cons, List.not_mem_nil, or_false] at hx
    rcases hx with rfl | rfl <;>
      simp only [assertEq, Expr.boundsOk, Bool.and_eq_true, decide_eq_true_eq,
        eq_self_iff_true, and_true, true_and] <;>
      omega
  · obtain ⟨hg, hx⟩ := mem_ite_nil hce
    simp only [List.mem_cons, List.not_mem_nil, or_false] at hx
    subst hx
    simp only [assertEq, Expr.boundsOk, Bool.and_eq_true, decide_eq_true_eq,
      eq_self_iff_true, and_true, true_and]
    omega
  · obtain ⟨hg, hx⟩ := mem_ite_nil hce
    simp only [List.mem_cons, List.not_mem_nil, or_false] at hx
    subst hx
    simp only [assertBool, Expr.boundsOk, Bool.and_eq_true, decide_eq_true_eq,
      eq_self_iff_true, and_true, true_and]
    omega

/-- All cell reads of the decoder-segment constraints stay below the row
lengths. -/
theorem decoder_boundsOk {a : MidenProcessorAir} {lc ln : Nat}
    (hlc : a.width ≤ lc) (hln : a.width ≤ ln) :
    ∀ ce ∈ a.enforce_decoder_constraints, ce.expr.boundsOk lc ln = true := by
  intro ce hce
  simp only [MidenProcessorAir.enforce_decoder_constraints, DECODER_OFFSET,
    DECODER_WIDTH, GROUP_COUNT_OFFSET, groupCountDiff] at hce
  split at hce
  · exact absurd hce (List.not_mem_nil ce)
  · simp only [List.mem_append] at hce
    rcases hce with (hce | hce) | hce
    · simp only [List.mem_flatMap, List.mem_range] at hce
      obtain ⟨i, hi, hx⟩ := hce
      obtain ⟨hg, hx⟩ := mem_ite_nil hx
      simp only [List.mem_cons, List.not_mem_nil, or_false] at hx
      subst hx
      simp only [assertBool, Expr.boundsOk, Bool.and_eq_true, decide_eq_true_eq,
        eq_self_iff_true, and_true, true_and]
      omega
    · simp only [List.mem_flatMap] at hce
      obtain ⟨off, hoff, hx⟩ := hce
      obtain ⟨hg, hx⟩ := mem_ite_nil hx
      simp only [List.mem_cons, List.not_mem_nil, or_false] at hx
      subst hx
      simp only [assertBool, Expr.boundsOk, Bool.and_eq_true, decide_eq_true_eq,
        eq_self_iff_true, and_true, true_and]
      omega
    · obtain ⟨hg, hx⟩ := mem_ite_nil hce
      simp only [List.mem_cons, List.not_mem_nil, or_false] at hx
      subst hx
      simp only [assertZero, Expr.boundsOk, Bool.and_eq_true, decide_eq_true_eq,
        eq_self_iff_true, and_true, true_and]
      omega

/-- All cell reads of the stack-segment constraints stay below the row
lengths. -/
theorem stack_boundsOk {a : MidenProcessorAir} {lc ln : Nat}
    (hlc : a.width ≤ lc) (hln : a.width ≤ ln) :
    ∀ ce ∈ a.enforce_stack_constraints, ce.expr.boundsOk lc ln = true := by
  intro ce hce
  simp only [MidenProcessorAir.enforce_stack_constraints, STACK_OFFSET,
    STACK_WIDTH, STACK_DEPTH_COL] at hce
  split at hce
  · exact absurd hce (List.not_mem_nil ce)
  · simp only [List.mem_append] at hce
    rcases hce with hce | hce
    · obtain ⟨hg, hx⟩ := mem_ite_nil hce
      simp only [List.mem_cons, List.not_mem_nil, or_false] at hx
      subst hx
      simp only [assertZero, Expr.boundsOk, Bool.and_eq_true, decide_eq_true_eq,
        eq_self_iff_true, and_true, true_and]
      omega
    · simp only [List.mem_flatMap, List.mem_range] at hce
      obtain ⟨pos, hpos, hx⟩ := hce
      obtain ⟨hg, hx⟩ := mem_ite_nil hx
      simp only [List.mem_cons, List.not_mem_nil, or_false] at hx
      subst hx
      simp only [assertZero, Expr.boundsOk, Bool.and_eq_true, decide_eq_true_eq,
        eq_self_iff_true, and_true, true_and]
      omega

/-- All cell reads of the range-check constraints stay below the row
lengths. -/
theorem range_boundsOk {a : MidenProcessorAir} {lc ln : Nat}
    (hlc : a.width ≤ lc) (hln : a.width ≤ ln) :
    ∀ ce ∈ a.enforce_range_check_constraints, ce.expr.boundsOk lc ln = true := by
  intro ce hce
  simp only [MidenProcessorAir.enforce_range_check_constraints, RANGE_OFFSET,
    RANGE_WIDTH, V_COL, B_COL] at hce
  split at hce
  · exact absurd hce (List.not_mem_nil ce)
  · obtain ⟨hg, hx⟩ := mem_ite_nil hce
    simp only [Bool.and_eq_true, decide_eq_true_eq] at hg
    simp only [List.mem_cons, List.not_mem_nil, or_false] at hx
    subst hx
    simp only [assertZero, Expr.boundsOk, Bool.and_eq_true, decide_eq_true_eq,
      eq_self_iff_true, and_true, true_and]
    omega

/-- All cell reads of the chiplet-segment constraints stay below the row
lengths. -/
theorem chiplet_boundsOk {a : MidenProcessorAir} {lc ln : Nat}
    (hlc : a.width ≤ lc) (hln : a.width ≤ ln) :
    ∀ ce ∈ a.enforce_chiplet_constraints, ce.expr.boundsOk lc ln = true := by
  intro ce hce
  simp only [MidenProcessorAir.enforce_chiplet_constraints, CHIPLETS_OFFSET,
    CHIPLETS_WIDTH, is_memory_op, is_bitwise_op] at hce
  split at hce
  · exact absurd hce (List.not_mem_nil ce)
  · rename_i hwide
    simp only [List.mem_append] at hce
    rcases hce with (hce | hce) | hce
    · simp only [List.mem_flatMap, List.mem_range] at hce
      obtain ⟨i, hi, hx⟩ := hce
      obtain ⟨hg, hx⟩ := mem_ite_nil hx
      simp only [List.mem_cons, List.not_mem_nil, or_false] at hx
      subst hx
      simp only [assertBool, Expr.boundsOk, Bool.and_eq_true, decide_eq_true_eq,
        eq_self_iff_true, and_true, true_and]
      omega
    · obtain ⟨hg, hx⟩ := mem_ite_nil hce
      simp only [List.mem_cons, List.not_mem_nil, or_false] at hx
      subst hx
      simp only [assertZero, Expr.boundsOk, Bool.and_eq_true, decide_eq_true_eq,
        eq_self_iff_true, and_true, true_and]
      omega
    · obtain ⟨hg1, hx⟩ := mem_ite_nil hce
      obtain ⟨hg2, hx⟩ := mem_ite_nil hx
      simp only [List.mem_cons, List.not_mem_nil, or_false] at hx
      subst hx
      simp only [assertZero, Expr.boundsOk, Bool.and_eq_true, decide_eq_true_eq,
        eq_self_iff_true, and_true, true_and]
      omega

/-- All cell reads of the boundary constraints stay below the row lengths;
this needs `width ≥ 1` because column 0 of the current row is read without a
width guard. -/
theorem boundary_boundsOk {a : MidenProcessorAir} {lc ln : Nat}
    (hW : 1 ≤ a.width) (hlc : a.width ≤ lc) :
    ∀ ce ∈ a.enforce_boundary_constraints, ce.expr.boundsOk lc ln = true := by
  intro ce hce
  simp only [MidenProcessorAir.enforce_boundary_constraints, CTX_COL,
    List.mem_append] at hce
  rcases hce with hce | hce
  · simp only [List.mem_cons, List.not_mem_nil, or_false] at hce
    subst hce
    simp only [assertEq, Expr.boundsOk, Bool.and_eq_true, decide_eq_true_eq,
      eq_self_iff_true, and_true, true_and]
    omega
  · obtain ⟨hg, hx⟩ := mem_ite_nil hce
    simp only [List.mem_cons, List.not_mem_nil, or_false] at hx
    subst hx
    simp only [assertEq, Expr.boundsOk, Bool.and_eq_true, decide_eq_true_eq,
      eq_self_iff_true, and_true, true_and]
    omega

/-- Claim C9: for every descriptor of width ≥ 1 and row views of length ≥
width, every column index read by `eval`'s five segment methods and the
boundary method is in bounds; and the width ≥ 1 hypothesis is necessary — at
width 0 the boundary method still reads column 0 of the current row. -/
theorem c9_eval_reads_in_bounds :
    (∀ (a : MidenProcessorAir) (lc ln : Nat), 1 ≤ a.width → a.width ≤ lc →
      a.width ≤ ln → ∀ ce ∈ a.eval, ce.expr.boundsOk lc ln = true) ∧
    (∃ ce ∈ MidenProcessorAir.eval ⟨0, 8, true⟩,
      ce.expr.boundsOk 0 0 = false) := by
  constructor
  · intro a lc ln hW hlc hln ce hce
    simp only [MidenProcessorAir.eval, List.mem_append] at hce
    rcases hce with ((((hce | hce) | hce) | hce) | hce) | hce
    · exact sys_boundsOk hlc hln ce hce
    · exact decoder_boundsOk hlc hln ce hce
    · exact stack_boundsOk hlc hln ce hce
    · exact range_boundsOk hlc hln ce hce
    · exact chiplet_boundsOk hlc hln ce hce
    · exact boundary_boundsOk hW hlc ce hce
  · exact ⟨assertEq Sel.firstRow (Expr.cur 0) (Expr.const 0), by decide, by decide⟩

/-- Witness for C9 at a width-80 descriptor and the in-syscall constraint. -/
theorem c9_witness :
    Expr.boundsOk 80 80 (assertBool Sel.always (Expr.cur IN_SYSCALL_COL)).expr
      = true :=
  c9_eval_reads_in_bounds.1 ⟨80, 8, true⟩ 80 80 (by decide) (by decide)
    (by decide) (assertBool Sel.always (Expr.cur IN_SYSCALL_COL)) (by decide)
